import Mathlib

/-!
Shallow embedding of the scan engine of `pistol-rs` (`src/scan.rs`) and
proofs about its aggregation loop, OUI-prefix parsing, MAC formatting,
task generation and error propagation.

Conventions of the embedding:
* IPv4/IPv6 addresses, ports, IP next-header protocol numbers and
  `Duration` values are abstracted to `Nat`: none of the verified code
  inspects their inner structure, it only moves them around and compares
  them for equality.
* Rust `HashMap` becomes an association list with overwrite-on-insert
  (`minsert` / `mfind`); key order is irrelevant to every statement proved.
* Strings handled by the Rust code (OUI database lines, MAC prefix
  strings) are modelled as `List Char`, with `splitOnChar` mirroring
  Rust's `str::split(" ")` semantics (empty pieces kept, `""` yields
  one empty piece).
* Fallible Rust code (`Result`) becomes `Except`; a `panic!` reachable in
  the embedded fragment (an `Option::unwrap` on `None`) is modelled by the
  distinguished error `ScanError.panicked`.
* The probe engines (`scan::tcp`, `scan::udp`, `scan::ip`, `scan::arp`
  submodules) are not part of the sources under verification; they enter
  the model as an opaque environment `ScanEnv` supplying each probe's
  `Result`.  All theorems quantify over this environment or over the list
  of messages received on the result channel, so they hold for every
  behaviour of the probe engines and every delivery order.
-/

namespace Pistol

/-- Abstract IPv4 (or generic IP) address. -/
abbrev Ip := Nat

/-- Transport port number. -/
abbrev Port := Nat

/-- IP next-header protocol number (`IpNextHeaderProtocol`). -/
abbrev Protocol := Nat

/-- Round-trip time, abstracting `std::time::Duration`. -/
abbrev Rtt := Nat

/-- Status lattice `TargetScanStatus` from `scan.rs`. -/
inductive TargetScanStatus where
  | Open
  | Closed
  | Filtered
  | OpenOrFiltered
  | Unfiltered
  | Unreachable
  | ClosedOrFiltered
deriving DecidableEq, Repr

/-! ### Association-list model of `HashMap` -/

/-- Lookup in the association-list model of `HashMap`. -/
def mfind {V : Type} : List (Nat × V) → Nat → Option V
  | [], _ => none
  | (k', v') :: rest, k => if k' = k then some v' else mfind rest k

/-- Insert with overwrite, the association-list model of `HashMap::insert`. -/
def minsert {V : Type} : List (Nat × V) → Nat → V → List (Nat × V)
  | [], k, v => [(k, v)]
  | (k', v') :: rest, k, v =>
      if k' = k then (k, v) :: rest else (k', v') :: minsert rest k v

/-! ### Result containers (`scan.rs` lines 77-153) -/

/-- Container `PortStatus` from `scan.rs`. -/
structure PortStatus where
  status : List (Port × TargetScanStatus)
  rtt : Option Rtt
deriving DecidableEq, Repr

/-- Constructor `PortStatus::new`. -/
def PortStatus.new : PortStatus := { status := [], rtt := none }

/-- Container `TcpUdpScanResults` from `scan.rs`. -/
structure TcpUdpScanResults where
  results : List (Ip × PortStatus)
deriving DecidableEq, Repr

/-- Constructor `TcpUdpScanResults::new`. -/
def TcpUdpScanResults.new : TcpUdpScanResults := { results := [] }

/-- Container `ProtocolStatus` from `scan.rs`. -/
structure ProtocolStatus where
  status : List (Protocol × TargetScanStatus)
  rtt : Option Rtt
deriving DecidableEq, Repr

/-- Constructor `ProtocolStatus::new`. -/
def ProtocolStatus.new : ProtocolStatus := { status := [], rtt := none }

/-- Container `IpScanResults` from `scan.rs`. -/
structure IpScanResults where
  results : List (Ip × ProtocolStatus)
deriving DecidableEq, Repr

/-- Constructor `IpScanResults::new`. -/
def IpScanResults.new : IpScanResults := { results := [] }

/-! ### OUI prefix database parsing (`get_nmap_mac_prefixes`, lines 213-235) -/

/-- A text line, modelled as its character list. -/
abbrev Line := List Char

/-- Entry type `NmapMacPrefix` from `scan.rs` (its first field renamed to `pfx`). -/
structure NmapMacPrefix where
  pfx : Line
  ouis : Line
deriving DecidableEq, Repr

/-- Rust `str::split(c)` semantics on a character list: split at every
occurrence of `c`, keeping empty pieces; the empty input yields one empty
piece. -/
def splitOnChar (c : Char) : List Char → List (List Char)
  | [] => [[]]
  | x :: xs =>
      let r := splitOnChar c xs
      if x = c then [] :: r else (x :: r.headI) :: r.tail

/-- The body of the second loop of `get_nmap_mac_prefixes`: what one line
of the database contributes to the accumulated table. -/
def lineStep (ret : List NmapMacPrefix) (p : Line) : List NmapMacPrefix :=
  if ¬ ('#' ∈ p) then
    let psplit := splitOnChar ' ' p
    if 2 ≤ psplit.length then
      ret ++ [{ pfx := psplit.headI, ouis := List.intercalate [' '] (psplit.drop 1) }]
    else ret
  else ret

/-- Function `get_nmap_mac_prefixes` from `scan.rs`, as a function of the lines of
the bundled database file (the file itself is external data). -/
def get_nmap_mac_prefixes (fileLines : List Line) : List NmapMacPrefix :=
  fileLines.foldl lineStep []

/-- Rendered from the amended claim wording: a line is skipped when it
contains `#` anywhere or splits on single spaces into fewer than two
pieces; otherwise it yields an entry whose prefix is the first piece and
whose vendor string is the remaining pieces joined by single spaces. -/
def lineEntrySpec (p : Line) : Option NmapMacPrefix :=
  if '#' ∈ p then none
  else
    match splitOnChar ' ' p with
    | p0 :: p1 :: rest => some { pfx := p0, ouis := List.intercalate [' '] (p1 :: rest) }
    | _ => none

/-! ### MAC prefix formatting and OUI lookup (`arp_scan`, lines 288-328) -/

/-- Hardware address `MacAddr` (six octets), from the `pnet` crate. -/
structure MacAddr where
  b0 : Fin 256
  b1 : Fin 256
  b2 : Fin 256
  b3 : Fin 256
  b4 : Fin 256
  b5 : Fin 256
deriving DecidableEq, Repr

/-- Uppercase hexadecimal digit for `n < 16`. -/
def hexDigitU (n : Nat) : Char :=
  if n < 10 then Char.ofNat (48 + n) else Char.ofNat (55 + n)

/-- Rust `format!("{:X}", b)` for a `u8`: minimal-width uppercase hex. -/
def fmtHexU (b : Fin 256) : Line :=
  if b.val < 16 then [hexDigitU b.val]
  else [hexDigitU (b.val / 16), hexDigitU (b.val % 16)]

/-- The zero-padding loop of `arp_scan`: left-pad with `'0'` to width 2. -/
def pad2 (s : Line) : Line :=
  let i := if s.length < 2 then 2 - s.length else 0
  List.replicate i '0' ++ s

/-- The `mac_prefix` string built by `arp_scan` from the first three
octets of a discovered MAC. -/
def macPrefixOf (m : MacAddr) : Line :=
  pad2 (fmtHexU m.b0) ++ pad2 (fmtHexU m.b1) ++ pad2 (fmtHexU m.b2)

/-- The OUI lookup loop of `arp_scan`: start from the empty string, take
the vendor of every matching prefix (the last match wins). -/
def lookupOuis (prefixes : List NmapMacPrefix) (macPfx : Line) : Line :=
  prefixes.foldl (fun acc p => if macPfx = p.pfx then p.ouis else acc) []

/-- A character is an uppercase hexadecimal digit. -/
def isUpperHexDigit (c : Char) : Bool :=
  ('0' ≤ c && c ≤ '9') || ('A' ≤ c && c ≤ 'F')

/-! ### Scan methods, errors, verdicts -/

/-- Method selector `ScanMethod` from `scan.rs`. -/
inductive ScanMethod where
  | Connect
  | Syn
  | Fin
  | Ack
  | Null
  | Xmas
  | Window
  | Maimon
  | Idle
  | Udp
  | IpProcotol
deriving DecidableEq, Repr

/-- Errors that can travel through the `anyhow::Result` values of
`scan.rs`.  `probeErr` carries an error message from a probe engine or an
address-resolution helper; `cannotFindSourceAddress` is
`CanNotFoundSourceAddress`; `panicked` marks a reachable
`Option::unwrap()` on `None` (a Rust panic, not an `Err`). -/
inductive ScanError where
  | probeErr (e : String)
  | cannotFindSourceAddress
  | panicked
deriving DecidableEq, Repr

/-- One successful message on the result channel of `scan`: the tuple
`(dst_ipv4, dst_port, procotol, scan_ret, rtt)` produced by `run_scan`. -/
structure Verdict where
  dstIp : Ip
  dstPort : Port
  protocol : Option Protocol
  status : TargetScanStatus
  rtt : Option Rtt
deriving DecidableEq, Repr

/-- Diagnostics pair `IdleScanResults` from `scan.rs`. -/
structure IdleScanResults where
  zombieIpId1 : Nat
  zombieIpId2 : Nat
deriving DecidableEq, Repr

/-! ### The aggregation loop of `scan` (`scan.rs` lines 500-547) -/

/-- The body of the consumer loop of `scan` for one `Ok` message,
mirroring lines 506-543 of `scan.rs`: route on `procotol`, update the
per-IP entry in place when the key exists, otherwise create it; the RTT
field is written only while it is `None`. -/
def scanStep (tcpudpRet : TcpUdpScanResults) (ipRet : IpScanResults) (v : Verdict) :
    TcpUdpScanResults × IpScanResults :=
  match v.protocol with
  | some p =>
      match mfind ipRet.results v.dstIp with
      | some ps =>
          let ps' : ProtocolStatus :=
            { status := minsert ps.status p v.status
              rtt := match ps.rtt with
                     | some r => some r
                     | none => v.rtt }
          (tcpudpRet, { results := minsert ipRet.results v.dstIp ps' })
      | none =>
          let ps0 := ProtocolStatus.new
          let ps1 : ProtocolStatus := { ps0 with status := minsert ps0.status p v.status }
          let ps2 : ProtocolStatus :=
            { ps1 with rtt := match ps1.rtt with
                              | some r => some r
                              | none => v.rtt }
          (tcpudpRet, { results := minsert ipRet.results v.dstIp ps2 })
  | none =>
      match mfind tcpudpRet.results v.dstIp with
      | some ps =>
          let ps' : PortStatus :=
            { status := minsert ps.status v.dstPort v.status
              rtt := match ps.rtt with
                     | some r => some r
                     | none => v.rtt }
          ({ results := minsert tcpudpRet.results v.dstIp ps' }, ipRet)
      | none =>
          let ps0 := PortStatus.new
          let ps1 : PortStatus := { ps0 with status := minsert ps0.status v.dstPort v.status }
          let ps2 : PortStatus :=
            { ps1 with rtt := match ps1.rtt with
                              | some r => some r
                              | none => v.rtt }
          ({ results := minsert tcpudpRet.results v.dstIp ps2 }, ipRet)

/-- The consumer loop of `scan`: fold the received messages into the two
result containers, mirroring lines 504-546 of `scan.rs`.  An `Err`
message aborts the loop and is returned as the overall result. -/
def scanLoop : TcpUdpScanResults → IpScanResults →
    List (Except ScanError Verdict) →
    Except ScanError (TcpUdpScanResults × IpScanResults)
  | tcpudpRet, ipRet, [] => .ok (tcpudpRet, ipRet)
  | _, _, .error e :: _ => .error e
  | tcpudpRet, ipRet, .ok v :: rest =>
      scanLoop (scanStep tcpudpRet ipRet v).1 (scanStep tcpudpRet ipRet v).2 rest

/-- The aggregation of `scan`, starting from the two fresh containers. -/
def scanAggregate (msgs : List (Except ScanError Verdict)) :
    Except ScanError (TcpUdpScanResults × IpScanResults) :=
  scanLoop TcpUdpScanResults.new IpScanResults.new msgs

/-! ### The probe environment and `run_scan` (`scan.rs` lines 339-406) -/

/-- Outcomes of the probe engines.  The engines themselves
(`scan::tcp`, `scan::udp`, `scan::ip` submodules) are outside the
verified sources; each theorem below quantifies over this environment.
`sendProbe` covers the eight TCP families and UDP (identical signatures
in the source); `sendIdle` is `tcp::send_idle_scan_packet`;
`sendIpProtocol` is `ip::send_ip_procotol_scan_packet`.
`findSourceIpv4` is `utils::find_source_ipv4` and `randomPort` gives the
`k`-th value drawn from `utils::random_port`. -/
structure ScanEnv where
  sendProbe : ScanMethod → Ip → Port → Ip → Port →
    Except String (TargetScanStatus × Option Rtt)
  sendIdle : Ip → Port → Ip → Port → Ip → Port →
    Except String (TargetScanStatus × IdleScanResults × Option Rtt)
  sendIpProtocol : Ip → Ip → Protocol →
    Except String (TargetScanStatus × Option Rtt)
  findSourceIpv4 : Option Ip → Ip → Except String (Option Ip)
  randomPort : Nat → Port

/-- Worker body `run_scan` from `scan.rs`.  The `Idle` arm unwraps the zombie pair
(`unwrap()` on `None` panics) and the `IpProcotol` arm unwraps the
protocol; every `Ok` carries the `protocol` argument through verbatim. -/
def run_scan (env : ScanEnv) (method : ScanMethod) (srcIp : Ip) (srcPort : Port)
    (dstIp : Ip) (dstPort : Port) (zombieIp : Option Ip) (zombiePort : Option Port)
    (protocol : Option Protocol) : Except ScanError Verdict :=
  match method with
  | .Idle =>
      match zombieIp, zombiePort with
      | some zi, some zp =>
          match env.sendIdle srcIp srcPort dstIp dstPort zi zp with
          | .ok (status, _idleRets, rtt) =>
              .ok { dstIp := dstIp, dstPort := dstPort, protocol := protocol,
                    status := status, rtt := rtt }
          | .error e => .error (.probeErr e)
      | _, _ => .error .panicked
  | .IpProcotol =>
      match protocol with
      | some p =>
          match env.sendIpProtocol srcIp dstIp p with
          | .ok (status, rtt) =>
              .ok { dstIp := dstIp, dstPort := dstPort, protocol := protocol,
                    status := status, rtt := rtt }
          | .error e => .error (.probeErr e)
      | none => .error .panicked
  | m =>
      match env.sendProbe m srcIp srcPort dstIp dstPort with
      | .ok (status, rtt) =>
          .ok { dstIp := dstIp, dstPort := dstPort, protocol := protocol,
                status := status, rtt := rtt }
      | .error e => .error (.probeErr e)

/-! ### Task generation of `scan` (`scan.rs` lines 468-498) -/

/-- Work item `Host`: a destination address with its port list. -/
structure Host where
  addr : Ip
  ports : List Port
deriving DecidableEq, Repr

/-- One submitted work item of `scan`: the arguments a pooled worker
passes to `run_scan`. -/
structure ScanTask where
  srcIp : Ip
  srcPort : Port
  dstIp : Ip
  dstPort : Port
deriving DecidableEq, Repr

/-- The submission loop of `scan` (lines 468-498): per host, resolve the
source address, draw the source port once (`random_port()` when
`src_port` is `None`; `k` counts the draws made so far), then submit one
task per destination port. -/
def scanTasksLoop (env : ScanEnv) (srcIp? : Option Ip) (srcPort? : Option Port) :
    Nat → List Host → Except ScanError (List ScanTask)
  | _, [] => .ok []
  | k, h :: hs =>
      match env.findSourceIpv4 srcIp? h.addr with
      | .error e => .error (.probeErr e)
      | .ok none => .error .cannotFindSourceAddress
      | .ok (some s) =>
          let sp : Port × Nat :=
            match srcPort? with
            | some p => (p, k)
            | none => (env.randomPort k, k + 1)
          match scanTasksLoop env srcIp? srcPort? sp.2 hs with
          | .ok ts =>
              .ok (h.ports.map (fun dp =>
                { srcIp := s, srcPort := sp.1, dstIp := h.addr, dstPort := dp }) ++ ts)
          | .error e => .error e

/-- Rendered from the claim wording for the source-port draw: every
`(host, port)` task draws its own fresh random source port when
`src_port` is `None`.  Identical to `scanTasksLoop` except that the draw
counter advances per task, not per host. -/
def scanTasksPerTaskDraw (env : ScanEnv) (srcIp? : Option Ip) (srcPort? : Option Port) :
    Nat → List Host → Except ScanError (List ScanTask)
  | _, [] => .ok []
  | k, h :: hs =>
      match env.findSourceIpv4 srcIp? h.addr with
      | .error e => .error (.probeErr e)
      | .ok none => .error .cannotFindSourceAddress
      | .ok (some s) =>
          let tasks := h.ports.enum.map (fun pi =>
            { srcIp := s
              srcPort := match srcPort? with
                         | some p => p
                         | none => env.randomPort (k + pi.1)
              dstIp := h.addr
              dstPort := pi.2 : ScanTask })
          let k' : Nat :=
            match srcPort? with
            | some _ => k
            | none => k + h.ports.length
          match scanTasksPerTaskDraw env srcIp? srcPort? k' hs with
          | .ok ts => .ok (tasks ++ ts)
          | .error e => .error e

/-- Entry point `scan` from `scan.rs`, composed from the submission loop, `run_scan`
per task, and the aggregation loop.  The message list models the result
channel; theorems that depend on delivery order are stated directly over
`scanAggregate` with an arbitrary message list instead. -/
def scan (env : ScanEnv) (hosts : List Host) (method : ScanMethod)
    (srcIp? : Option Ip) (srcPort? : Option Port)
    (zombieIp : Option Ip) (zombiePort : Option Port)
    (protocol : Option Protocol) :
    Except ScanError (TcpUdpScanResults × IpScanResults) :=
  match scanTasksLoop env srcIp? srcPort? 0 hosts with
  | .error e => .error e
  | .ok tasks =>
      scanAggregate (tasks.map (fun t =>
        run_scan env method t.srcIp t.srcPort t.dstIp t.dstPort zombieIp zombiePort protocol))

/-- Wrapper `tcp_connect_scan` from `scan.rs`. -/
def tcp_connect_scan (env : ScanEnv) (hosts : List Host)
    (srcIp? : Option Ip) (srcPort? : Option Port) :
    Except ScanError TcpUdpScanResults :=
  (scan env hosts .Connect srcIp? srcPort? none none none).map Prod.fst

/-- Wrapper `tcp_syn_scan` from `scan.rs`. -/
def tcp_syn_scan (env : ScanEnv) (hosts : List Host)
    (srcIp? : Option Ip) (srcPort? : Option Port) :
    Except ScanError TcpUdpScanResults :=
  (scan env hosts .Syn srcIp? srcPort? none none none).map Prod.fst

/-- Wrapper `tcp_idle_scan` from `scan.rs`. -/
def tcp_idle_scan (env : ScanEnv) (hosts : List Host)
    (srcIp? : Option Ip) (srcPort? : Option Port)
    (zombieIp : Option Ip) (zombiePort : Option Port) :
    Except ScanError TcpUdpScanResults :=
  (scan env hosts .Idle srcIp? srcPort? zombieIp zombiePort none).map Prod.fst

/-- Wrapper `udp_scan` from `scan.rs`. -/
def udp_scan (env : ScanEnv) (hosts : List Host)
    (srcIp? : Option Ip) (srcPort? : Option Port) :
    Except ScanError TcpUdpScanResults :=
  (scan env hosts .Udp srcIp? srcPort? none none none).map Prod.fst

/-- Wrapper `ip_procotol_scan` from `scan.rs`. -/
def ip_procotol_scan (env : ScanEnv) (hosts : List Host)
    (srcIp? : Option Ip) (srcPort? : Option Port) (protocol : Option Protocol) :
    Except ScanError IpScanResults :=
  (scan env hosts .IpProcotol srcIp? srcPort? none none protocol).map Prod.snd

/-! ### ARP aggregation (`arp_scan`, `scan.rs` lines 285-333) -/

/-- Record `ArpAliveHosts` from `scan.rs`. -/
structure ArpAliveHosts where
  macAddr : MacAddr
  ouis : Line
deriving DecidableEq, Repr

/-- Container `ArpScanResults` from `scan.rs`. -/
structure ArpScanResults where
  aliveHosts : List (Ip × ArpAliveHosts)
deriving DecidableEq, Repr

/-- One message on the result channel of `arp_scan`: the workers send
`Ok((dst_ipv4, scan_ret))` where `scan_ret` is the probe's `Result` of an
optional MAC and optional RTT. -/
abbrev ArpMsg := Except String (Ip × Except String (Option MacAddr × Option Rtt))

/-- The body of the consumer loop of `arp_scan` for one observation that
arrived without error: a `(Some mac, Some rtt)` pair records the host
with its OUI vendor string; anything else leaves the map unchanged. -/
def arpStep (prefixes : List NmapMacPrefix) (acc : List (Ip × ArpAliveHosts))
    (targetIp : Ip) : Option MacAddr × Option Rtt → List (Ip × ArpAliveHosts)
  | (some m, some _rtt) =>
      let macPfx := macPrefixOf m
      let ouis := lookupOuis prefixes macPfx
      minsert acc targetIp { macAddr := m, ouis := ouis }
  | _ => acc

/-- The consumer loop of `arp_scan` (lines 286-332): a message whose
inner probe `Result` is an `Err` aborts the campaign via the `?`
operator; otherwise the observation is folded in by `arpStep`. -/
def arpLoop (prefixes : List NmapMacPrefix) :
    List (Ip × ArpAliveHosts) → List ArpMsg → Except String ArpScanResults
  | acc, [] => .ok { aliveHosts := acc }
  | _, .error e :: _ => .error e
  | _, .ok (_, .error e) :: _ => .error e
  | acc, .ok (targetIp, .ok obs) :: rest =>
      arpLoop prefixes (arpStep prefixes acc targetIp obs) rest

/-- The aggregation of `arp_scan`, starting from the empty map. -/
def arpAggregate (prefixes : List NmapMacPrefix) (msgs : List ArpMsg) :
    Except String ArpScanResults :=
  arpLoop prefixes [] msgs

/-! ### Observation functions used to state the aggregation properties -/

/-- The first present value in a list of optional RTTs. -/
def firstSome : List (Option Rtt) → Option Rtt
  | [] => none
  | some r :: _ => some r
  | none :: l => firstSome l

/-- The RTT fields of the verdicts a message list carries for IP `ip` on
the TCP/UDP side (no protocol attached), in arrival order. -/
def tcpRttsFor (msgs : List (Except ScanError Verdict)) (ip : Ip) : List (Option Rtt) :=
  msgs.filterMap (fun m =>
    match m with
    | .ok v => if v.protocol = none ∧ v.dstIp = ip then some v.rtt else none
    | .error _ => none)

/-- The RTT fields of the verdicts a message list carries for IP `ip` on
the IP-protocol side (a protocol attached), in arrival order. -/
def ipRttsFor (msgs : List (Except ScanError Verdict)) (ip : Ip) : List (Option Rtt) :=
  msgs.filterMap (fun m =>
    match m with
    | .ok v => if v.protocol.isSome ∧ v.dstIp = ip then some v.rtt else none
    | .error _ => none)

/-- How the stored RTT of one IP evolves across a message list: `none`
means the IP has no entry, `some r` an entry whose `rtt` field is `r`. -/
def mergeRtt : Option (Option Rtt) → List (Option Rtt) → Option (Option Rtt)
  | some r0, l => some (firstSome (r0 :: l))
  | none, [] => none
  | none, l => some (firstSome l)

/-- One step of the stored-RTT evolution: an existing present RTT is
kept, an absent one is filled with the incoming observation. -/
def pushRtt : Option (Option Rtt) → Option Rtt → Option (Option Rtt)
  | some (some r0), _ => some (some r0)
  | some none, r => some r
  | none, r => some r

/-- The status stored for `(ip, port)` in a TCP/UDP result container. -/
def tcpStatusAt (t : TcpUdpScanResults) (ip : Ip) (port : Port) : Option TargetScanStatus :=
  match mfind t.results ip with
  | some ps => mfind ps.status port
  | none => none

/-- The status of the last verdict for `(ip, port)` on the TCP/UDP side
of a message list, starting from the prior value `a`. -/
def tcpLastFrom (ip : Ip) (port : Port) :
    Option TargetScanStatus → List (Except ScanError Verdict) → Option TargetScanStatus
  | a, [] => a
  | a, .ok v :: rest =>
      tcpLastFrom ip port
        (if v.protocol = none ∧ v.dstIp = ip ∧ v.dstPort = port then some v.status else a) rest
  | a, .error _ :: rest => tcpLastFrom ip port a rest

/-- A message on the result channel of `arp_scan` that did not carry an
error (neither on the channel nor from the probe). -/
def arpMsgClean (x : ArpMsg) : Prop :=
  ∃ ip obs, x = .ok (ip, .ok obs)

/-- A fixed environment used by the concrete witnesses below: every
probe succeeds with a fixed verdict, the source address resolves to
`destination + 100`, and the `k`-th random port draw is `49152 + k`
(distinct draws, matching the 49152-65535 ephemeral range). -/
def envW : ScanEnv where
  sendProbe := fun _ _ _ _ _ => .ok (.Filtered, none)
  sendIdle := fun _ _ _ _ _ _ => .ok (.Open, { zombieIpId1 := 0, zombieIpId2 := 0 }, none)
  sendIpProtocol := fun _ _ _ => .ok (.Open, none)
  findSourceIpv4 := fun _ d => .ok (some (d + 100))
  randomPort := fun k => 49152 + k

/-! ## Helper lemmas -/

theorem mfind_minsert {V : Type} (m : List (Nat × V)) (k k2 : Nat) (v : V) :
    mfind (minsert m k v) k2 = if k2 = k then some v else mfind m k2 := by
  induction m with
  | nil =>
      by_cases h : k2 = k
      · simp [minsert, mfind, h]
      · have h' : ¬ k = k2 := fun hh => h hh.symm
        simp [minsert, mfind, h, h']
  | cons p rest ih =>
      obtain ⟨k', v'⟩ := p
      by_cases hk : k' = k
      · subst hk
        by_cases h2 : k2 = k'
        · subst h2
          simp [minsert, mfind]
        · have h2' : ¬ k' = k2 := fun hh => h2 hh.symm
          simp [minsert, mfind, h2, h2']
      · by_cases h2 : k2 = k'
        · subst h2
          simp [minsert, mfind, hk, Ne.symm hk]
        · have h2' : ¬ k' = k2 := fun hh => h2 hh.symm
          simp [minsert, mfind, hk, h2, h2', ih]

theorem minsert_ne_nil {V : Type} (m : List (Nat × V)) (k : Nat) (v : V) :
    minsert m k v ≠ [] := by
  cases m with
  | nil => simp [minsert]
  | cons p rest =>
      obtain ⟨k', v'⟩ := p
      by_cases h : k' = k <;> simp [minsert, h]

theorem splitOnChar_ne_nil (c : Char) (l : List Char) : splitOnChar c l ≠ [] := by
  cases l with
  | nil => simp [splitOnChar]
  | cons x xs =>
      by_cases h : x = c <;> simp [splitOnChar, h]

theorem scanStep_fst_of_some (tcp : TcpUdpScanResults) (ipr : IpScanResults)
    (v : Verdict) (p : Protocol) (hp : v.protocol = some p) :
    (scanStep tcp ipr v).1 = tcp := by
  rcases hf : mfind ipr.results v.dstIp with _ | ps0 <;> simp [scanStep, hp, hf]

theorem scanStep_snd_of_none (tcp : TcpUdpScanResults) (ipr : IpScanResults)
    (v : Verdict) (hp : v.protocol = none) :
    (scanStep tcp ipr v).2 = ipr := by
  rcases hf : mfind tcp.results v.dstIp with _ | ps0 <;> simp [scanStep, hp, hf]

/-! ## C6 — OUI database line parsing -/

theorem lineStep_eq (ret : List NmapMacPrefix) (p : Line) :
    lineStep ret p = ret ++ (lineEntrySpec p).toList := by
  by_cases hmem : '#' ∈ p
  · simp [lineStep, lineEntrySpec, hmem]
  · rcases hs : splitOnChar ' ' p with _ | ⟨p0, tail⟩
    · exact absurd hs (splitOnChar_ne_nil ' ' p)
    · rcases tail with _ | ⟨p1, rest⟩
      · simp [lineStep, lineEntrySpec, hmem, hs]
      · simp [lineStep, lineEntrySpec, hmem, hs, List.headI]

theorem get_nmap_mac_prefixes_from (fileLines : List Line) :
    ∀ acc : List NmapMacPrefix,
      fileLines.foldl lineStep acc = acc ++ fileLines.filterMap lineEntrySpec := by
  induction fileLines with
  | nil => intro acc; simp
  | cons p rest ih =>
      intro acc
      rcases he : lineEntrySpec p with _ | entry
      · simp [List.foldl_cons, lineStep_eq, he, ih]
      · simp [List.foldl_cons, lineStep_eq, he, ih]

/-- C6 (counterexample): the line `"00000D Fibronics #old"` is non-empty,
does not start with `#`, and splits on spaces into a prefix plus further
fields, yet `get_nmap_mac_prefixes` produces no entry for it, because the
code skips every line that CONTAINS `#` anywhere, not only lines that
start with `#`. -/
theorem C6_line_with_inner_hash_counterexample :
    "00000D Fibronics #old".toList ≠ [] ∧
    ("00000D Fibronics #old".toList).head? ≠ some '#' ∧
    2 ≤ (splitOnChar ' ' "00000D Fibronics #old".toList).length ∧
    get_nmap_mac_prefixes ["00000D Fibronics #old".toList] = [] := by
  refine ⟨by decide, by decide, by decide, by decide⟩

/-- C6 (amended): a database line yields an entry exactly when it
contains no `#` anywhere and splits on single spaces into a prefix plus
at least one further field; the entry's prefix is the first field and its
vendor string is the remaining fields joined by single spaces; every
other line — in particular every line containing `#`, wherever the `#`
occurs — is skipped.  (`lineEntrySpec` renders these words.) -/
theorem C6_get_nmap_mac_prefixes_spec (fileLines : List Line) :
    get_nmap_mac_prefixes fileLines = fileLines.filterMap lineEntrySpec := by
  simpa using get_nmap_mac_prefixes_from fileLines []

/-! ## C7 — MAC prefix formatting and OUI lookup miss -/

set_option maxRecDepth 4096 in
theorem pad2_fmtHexU_spec (b : Fin 256) :
    (pad2 (fmtHexU b)).length = 2 ∧
      ∀ c ∈ pad2 (fmtHexU b), isUpperHexDigit c = true := by
  revert b; decide

theorem lookupOuis_from (macPfx : Line) (prefixes : List NmapMacPrefix) :
    ∀ acc : Line, (∀ p ∈ prefixes, p.pfx ≠ macPfx) →
      prefixes.foldl (fun acc p => if macPfx = p.pfx then p.ouis else acc) acc = acc := by
  induction prefixes with
  | nil => intro acc _; rfl
  | cons p rest ih =>
      intro acc hne
      have hp : p.pfx ≠ macPfx := hne p (List.mem_cons_self p rest)
      have hp' : ¬ macPfx = p.pfx := fun hh => hp hh.symm
      simp only [List.foldl_cons, if_neg hp']
      exact ih acc (fun q hq => hne q (List.mem_cons_of_mem p hq))

/-- C7: for every `MacAddr` (octets are `u8` values), the `mac_prefix`
string `arp_scan` builds from the first three octets is exactly six
characters long, every character an uppercase hexadecimal digit (two
zero-padded uppercase hex digits per octet, no separators); and when no
database prefix equals it, the looked-up vendor string is empty. -/
theorem C7_mac_prefix_format (m : MacAddr) :
    (macPrefixOf m).length = 6 ∧
    (∀ c ∈ macPrefixOf m, isUpperHexDigit c = true) ∧
    ∀ prefixes : List NmapMacPrefix,
      (∀ p ∈ prefixes, p.pfx ≠ macPrefixOf m) →
      lookupOuis prefixes (macPrefixOf m) = [] := by
  refine ⟨?_, ?_, ?_⟩
  · have h0 := (pad2_fmtHexU_spec m.b0).1
    have h1 := (pad2_fmtHexU_spec m.b1).1
    have h2 := (pad2_fmtHexU_spec m.b2).1
    simp [macPrefixOf, h0, h1, h2]
  · intro c hc
    simp only [macPrefixOf, List.mem_append] at hc
    rcases hc with (hc | hc) | hc
    · exact (pad2_fmtHexU_spec m.b0).2 c hc
    · exact (pad2_fmtHexU_spec m.b1).2 c hc
    · exact (pad2_fmtHexU_spec m.b2).2 c hc
  · intro prefixes hne
    exact lookupOuis_from (macPrefixOf m) prefixes [] hne

/-- C7 witness: evaluated at the MAC `00:1B:C5:00:00:00` against a
one-entry database whose prefix differs. -/
theorem C7_mac_prefix_format_witness :
    (macPrefixOf { b0 := 0, b1 := 27, b2 := 197, b3 := 0, b4 := 0, b5 := 0 }).length = 6 ∧
    lookupOuis [{ pfx := "AABBCC".toList, ouis := "ACME Networks".toList }]
      (macPrefixOf { b0 := 0, b1 := 27, b2 := 197, b3 := 0, b4 := 0, b5 := 0 }) = [] := by
  refine ⟨(C7_mac_prefix_format _).1, ?_⟩
  exact (C7_mac_prefix_format
    { b0 := 0, b1 := 27, b2 := 197, b3 := 0, b4 := 0, b5 := 0 }).2.2
    [{ pfx := "AABBCC".toList, ouis := "ACME Networks".toList }] (by decide)

/-! ## C8 — Idle scan without a zombie -/

/-- C8: calling `tcp_idle_scan` with `zombie_ipv4 = None` and
`zombie_port = None` on a target with one host and one port reaches the
`zombie_ipv4.unwrap()` of `run_scan`, which panics on `None`
(`ScanError.panicked` in this model) — the call neither produces a
verdict nor returns the `InvalidConfiguration` error the specification
prescribes (no such error path exists in the code). -/
theorem C8_idle_scan_without_zombie_panics :
    tcp_idle_scan envW [{ addr := 5, ports := [22] }] none none none none =
      .error .panicked ∧
    run_scan envW .Idle 105 49152 5 22 none none none = .error .panicked :=
  ⟨rfl, rfl⟩

/-! ## C2 — a worker error aborts aggregation with the first error -/

theorem scanLoop_first_error (e : ScanError) (post : List (Except ScanError Verdict)) :
    ∀ (pre : List (Except ScanError Verdict)) (tcp : TcpUdpScanResults)
      (ipr : IpScanResults),
      (∀ x ∈ pre, ∃ v, x = .ok v) →
      scanLoop tcp ipr (pre ++ .error e :: post) = .error e := by
  intro pre
  induction pre with
  | nil => intro tcp ipr _; rfl
  | cons x rest ih =>
      intro tcp ipr hpre
      obtain ⟨v, rfl⟩ := hpre x (List.mem_cons_self x rest)
      simp only [List.cons_append, scanLoop]
      exact ih _ _ (fun y hy => hpre y (List.mem_cons_of_mem _ hy))

/-- C2: when the messages received on the result channel are a run of
verdicts followed by the first error `e` (and then anything), the
aggregation loop of `scan` aborts and returns exactly `e`, discarding
every verdict already merged and everything after the error. -/
theorem C2_first_error_aborts (pre post : List (Except ScanError Verdict))
    (e : ScanError) (hpre : ∀ x ∈ pre, ∃ v, x = .ok v) :
    scanAggregate (pre ++ .error e :: post) = .error e :=
  scanLoop_first_error e post pre TcpUdpScanResults.new IpScanResults.new hpre

/-- C2 witness: one verdict, then the error `"send failed"`, then a later
verdict and a later distinct error; the first error is returned. -/
theorem C2_first_error_aborts_witness :
    scanAggregate
      [.ok { dstIp := 5, dstPort := 22, protocol := none,
             status := .Open, rtt := some 3 },
       .error (.probeErr "send failed"),
       .ok { dstIp := 5, dstPort := 23, protocol := none,
             status := .Closed, rtt := none },
       .error (.probeErr "later error")] = .error (.probeErr "send failed") := by
  have h := C2_first_error_aborts
    [.ok { dstIp := 5, dstPort := 22, protocol := none,
           status := .Open, rtt := some 3 }]
    [.ok { dstIp := 5, dstPort := 23, protocol := none,
           status := .Closed, rtt := none },
     .error (.probeErr "later error")]
    (.probeErr "send failed")
    (by
      intro y hy
      rcases List.mem_singleton.mp hy with rfl
      exact ⟨_, rfl⟩)
  simpa using h

/-! ## C1 — every recorded IP has a non-empty status map -/

theorem scanStep_status_nonempty (tcp : TcpUdpScanResults) (ipr : IpScanResults)
    (v : Verdict)
    (h1 : ∀ ip ps, mfind tcp.results ip = some ps → ps.status ≠ [])
    (h2 : ∀ ip ps, mfind ipr.results ip = some ps → ps.status ≠ []) :
    (∀ ip ps, mfind (scanStep tcp ipr v).1.results ip = some ps → ps.status ≠ []) ∧
    (∀ ip ps, mfind (scanStep tcp ipr v).2.results ip = some ps → ps.status ≠ []) := by
  rcases hp : v.protocol with _ | p
  · rcases hf : mfind tcp.results v.dstIp with _ | ps0
    · constructor
      · intro ip ps hfind
        simp only [scanStep, hp, hf] at hfind
        rw [mfind_minsert] at hfind
        by_cases hip : ip = v.dstIp
        · rw [if_pos hip] at hfind
          cases hfind
          exact minsert_ne_nil _ _ _
        · rw [if_neg hip] at hfind
          exact h1 ip ps hfind
      · intro ip ps hfind
        simp only [scanStep, hp, hf] at hfind
        exact h2 ip ps hfind
    · constructor
      · intro ip ps hfind
        simp only [scanStep, hp, hf] at hfind
        rw [mfind_minsert] at hfind
        by_cases hip : ip = v.dstIp
        · rw [if_pos hip] at hfind
          cases hfind
          exact minsert_ne_nil _ _ _
        · rw [if_neg hip] at hfind
          exact h1 ip ps hfind
      · intro ip ps hfind
        simp only [scanStep, hp, hf] at hfind
        exact h2 ip ps hfind
  · rcases hf : mfind ipr.results v.dstIp with _ | ps0
    · constructor
      · intro ip ps hfind
        simp only [scanStep, hp, hf] at hfind
        exact h1 ip ps hfind
      · intro ip ps hfind
        simp only [scanStep, hp, hf] at hfind
        rw [mfind_minsert] at hfind
        by_cases hip : ip = v.dstIp
        · rw [if_pos hip] at hfind
          cases hfind
          exact minsert_ne_nil _ _ _
        · rw [if_neg hip] at hfind
          exact h2 ip ps hfind
    · constructor
      · intro ip ps hfind
        simp only [scanStep, hp, hf] at hfind
        exact h1 ip ps hfind
      · intro ip ps hfind
        simp only [scanStep, hp, hf] at hfind
        rw [mfind_minsert] at hfind
        by_cases hip : ip = v.dstIp
        · rw [if_pos hip] at hfind
          cases hfind
          exact minsert_ne_nil _ _ _
        · rw [if_neg hip] at hfind
          exact h2 ip ps hfind

theorem scanLoop_status_nonempty :
    ∀ (msgs : List (Except ScanError Verdict)) (tcp : TcpUdpScanResults)
      (ipr : IpScanResults) (t : TcpUdpScanResults) (i : IpScanResults),
      scanLoop tcp ipr msgs = .ok (t, i) →
      (∀ ip ps, mfind tcp.results ip = some ps → ps.status ≠ []) →
      (∀ ip ps, mfind ipr.results ip = some ps → ps.status ≠ []) →
      ((∀ ip ps, mfind t.results ip = some ps → ps.status ≠ []) ∧
       (∀ ip ps, mfind i.results ip = some ps → ps.status ≠ [])) := by
  intro msgs
  induction msgs with
  | nil =>
      intro tcp ipr t i h h1 h2
      simp only [scanLoop, Except.ok.injEq, Prod.mk.injEq] at h
      obtain ⟨rfl, rfl⟩ := h
      exact ⟨h1, h2⟩
  | cons x rest ih =>
      intro tcp ipr t i h h1 h2
      cases x with
      | error e => exact absurd h (by simp only [scanLoop]; exact fun hh => by cases hh)
      | ok v =>
          simp only [scanLoop] at h
          obtain ⟨g1, g2⟩ := scanStep_status_nonempty tcp ipr v h1 h2
          exact ih _ _ t i h g1 g2

/-- C1: whenever `scan` returns `Ok`, every IP key in the
`TcpUdpScanResults.results` map maps to a `PortStatus` with a non-empty
status map, and every IP key in the `IpScanResults.results` map maps to
a `ProtocolStatus` with a non-empty status map (each per-method wrapper
returns one component of such a pair). -/
theorem C1_scan_status_maps_nonempty (env : ScanEnv) (hosts : List Host)
    (method : ScanMethod) (srcIp? : Option Ip) (srcPort? : Option Port)
    (zombieIp : Option Ip) (zombiePort : Option Port) (protocol : Option Protocol)
    (t : TcpUdpScanResults) (i : IpScanResults)
    (h : scan env hosts method srcIp? srcPort? zombieIp zombiePort protocol = .ok (t, i)) :
    (∀ ip ps, mfind t.results ip = some ps → ps.status ≠ []) ∧
    (∀ ip ps, mfind i.results ip = some ps → ps.status ≠ []) := by
  rcases ht : scanTasksLoop env srcIp? srcPort? 0 hosts with e | tasks
  · rw [scan, ht] at h
    cases h
  · rw [scan, ht] at h
    refine scanLoop_status_nonempty _ _ _ t i h ?_ ?_
    · intro ip ps hfind
      simp [TcpUdpScanResults.new, mfind] at hfind
    · intro ip ps hfind
      simp [IpScanResults.new, mfind] at hfind

/-- C1 witness: a SYN scan of host 5, port 22 under `envW` records the
status map `[(22, Filtered)]`, which is non-empty. -/
theorem C1_scan_status_maps_nonempty_witness :
    ({ status := [(22, TargetScanStatus.Filtered)], rtt := none } : PortStatus).status ≠ [] :=
  (C1_scan_status_maps_nonempty envW [{ addr := 5, ports := [22] }] .Syn
      none none none none none
      { results := [(5, { status := [(22, TargetScanStatus.Filtered)], rtt := none })] }
      { results := [] } rfl).1 5
    { status := [(22, TargetScanStatus.Filtered)], rtt := none } rfl

/-! ## C5 — a later verdict for the same (ip, port) overwrites -/

theorem scanStep_tcpStatusAt (tcp : TcpUdpScanResults) (ipr : IpScanResults)
    (v : Verdict) (ip : Ip) (port : Port) :
    tcpStatusAt (scanStep tcp ipr v).1 ip port =
      if v.protocol = none ∧ v.dstIp = ip ∧ v.dstPort = port then some v.status
      else tcpStatusAt tcp ip port := by
  rcases hp : v.protocol with _ | p
  · by_cases hip : ip = v.dstIp
    · subst hip
      rcases hf : mfind tcp.results v.dstIp with _ | ps0
      · by_cases hpt : v.dstPort = port
        · subst hpt
          simp [scanStep, hp, hf, tcpStatusAt, mfind_minsert, PortStatus.new,
            minsert, mfind]
        · have hpt' : ¬ port = v.dstPort := fun hh => hpt hh.symm
          simp [scanStep, hp, hf, tcpStatusAt, mfind_minsert, PortStatus.new,
            minsert, mfind, hpt, hpt']
      · by_cases hpt : v.dstPort = port
        · subst hpt
          simp [scanStep, hp, hf, tcpStatusAt, mfind_minsert]
        · have hpt' : ¬ port = v.dstPort := fun hh => hpt hh.symm
          simp [scanStep, hp, hf, tcpStatusAt, mfind_minsert, hpt, hpt']
    · have hip' : ¬ v.dstIp = ip := fun hh => hip hh.symm
      rcases hf : mfind tcp.results v.dstIp with _ | ps0 <;>
        simp [scanStep, hp, hf, tcpStatusAt, mfind_minsert, hip, hip']
  · simp [scanStep_fst_of_some tcp ipr v p hp, hp]

theorem scanLoop_tcp_last_status :
    ∀ (msgs : List (Except ScanError Verdict)) (tcp : TcpUdpScanResults)
      (ipr : IpScanResults) (t : TcpUdpScanResults) (i : IpScanResults),
      scanLoop tcp ipr msgs = .ok (t, i) →
      ∀ ip port, tcpStatusAt t ip port = tcpLastFrom ip port (tcpStatusAt tcp ip port) msgs := by
  intro msgs
  induction msgs with
  | nil =>
      intro tcp ipr t i h ip port
      simp only [scanLoop, Except.ok.injEq, Prod.mk.injEq] at h
      obtain ⟨rfl, rfl⟩ := h
      rfl
  | cons x rest ih =>
      intro tcp ipr t i h ip port
      cases x with
      | error e => exact absurd h (by simp only [scanLoop]; exact fun hh => by cases hh)
      | ok v =>
          simp only [scanLoop] at h
          have hstep := ih _ _ t i h ip port
          rw [hstep, scanStep_tcpStatusAt]
          rfl

/-- C5: for the aggregation loop of `scan`, the status stored for
`(ip, port)` is exactly the status of the LAST received verdict for that
pair — so whenever two verdicts for the same pair are received, the
later one overwrites the earlier one. -/
theorem C5_later_verdict_overwrites (msgs : List (Except ScanError Verdict))
    (t : TcpUdpScanResults) (i : IpScanResults) (ip : Ip) (port : Port)
    (h : scanAggregate msgs = .ok (t, i)) :
    tcpStatusAt t ip port = tcpLastFrom ip port none msgs :=
  scanLoop_tcp_last_status msgs TcpUdpScanResults.new IpScanResults.new t i h ip port

/-- C5 witness: two verdicts for `(5, 22)`, `Open` then `Closed`; the
stored status is `Closed`, the later verdict's status. -/
theorem C5_later_verdict_overwrites_witness :
    tcpStatusAt
      { results := [(5, { status := [(22, TargetScanStatus.Closed)], rtt := none })] }
      5 22 =
      tcpLastFrom 5 22 none
        [.ok { dstIp := 5, dstPort := 22, protocol := none,
               status := .Open, rtt := none },
         .ok { dstIp := 5, dstPort := 22, protocol := none,
               status := .Closed, rtt := none }] ∧
    tcpLastFrom 5 22 none
      [.ok { dstIp := 5, dstPort := 22, protocol := none,
             status := .Open, rtt := none },
       .ok { dstIp := 5, dstPort := 22, protocol := none,
             status := .Closed, rtt := none }] = some TargetScanStatus.Closed :=
  ⟨C5_later_verdict_overwrites
    [.ok { dstIp := 5, dstPort := 22, protocol := none,
           status := .Open, rtt := none },
     .ok { dstIp := 5, dstPort := 22, protocol := none,
           status := .Closed, rtt := none }]
    { results := [(5, { status := [(22, TargetScanStatus.Closed)], rtt := none })] }
    { results := [] } 5 22 rfl, rfl⟩

/-! ## C4 — the stored RTT is the first observed one -/

theorem firstSome_single (a : Option Rtt) : firstSome [a] = a := by
  cases a <;> rfl

theorem mergeRtt_nil (a : Option (Option Rtt)) : mergeRtt a [] = a := by
  rcases a with _ | r0
  · rfl
  · simp [mergeRtt, firstSome_single]

theorem mergeRtt_cons (a : Option (Option Rtt)) (r : Option Rtt) (l : List (Option Rtt)) :
    mergeRtt a (r :: l) = mergeRtt (pushRtt a r) l := by
  rcases a with _ | r0
  · rfl
  · rcases r0 with _ | r0' <;> rfl

theorem scanStep_tcp_rttView (tcp : TcpUdpScanResults) (ipr : IpScanResults)
    (v : Verdict) (ip : Ip) :
    (mfind (scanStep tcp ipr v).1.results ip).map PortStatus.rtt =
      if v.protocol = none ∧ v.dstIp = ip then
        pushRtt ((mfind tcp.results ip).map PortStatus.rtt) v.rtt
      else (mfind tcp.results ip).map PortStatus.rtt := by
  rcases hp : v.protocol with _ | p
  · by_cases hip : ip = v.dstIp
    · subst hip
      rcases hf : mfind tcp.results v.dstIp with _ | ps0
      · simp [scanStep, hp, hf, mfind_minsert, pushRtt, PortStatus.new]
      · rcases hr : ps0.rtt with _ | r0 <;>
          simp [scanStep, hp, hf, hr, mfind_minsert, pushRtt]
    · have hip' : ¬ v.dstIp = ip := fun hh => hip hh.symm
      rcases hf : mfind tcp.results v.dstIp with _ | ps0 <;>
        simp [scanStep, hp, hf, mfind_minsert, hip, hip']
  · simp [scanStep_fst_of_some tcp ipr v p hp, hp]

theorem scanStep_ip_rttView (tcp : TcpUdpScanResults) (ipr : IpScanResults)
    (v : Verdict) (ip : Ip) :
    (mfind (scanStep tcp ipr v).2.results ip).map ProtocolStatus.rtt =
      if v.protocol.isSome ∧ v.dstIp = ip then
        pushRtt ((mfind ipr.results ip).map ProtocolStatus.rtt) v.rtt
      else (mfind ipr.results ip).map ProtocolStatus.rtt := by
  rcases hp : v.protocol with _ | p
  · simp [scanStep_snd_of_none tcp ipr v hp, hp]
  · by_cases hip : ip = v.dstIp
    · subst hip
      rcases hf : mfind ipr.results v.dstIp with _ | ps0
      · simp [scanStep, hp, hf, mfind_minsert, pushRtt, ProtocolStatus.new]
      · rcases hr : ps0.rtt with _ | r0 <;>
          simp [scanStep, hp, hf, hr, mfind_minsert, pushRtt]
    · have hip' : ¬ v.dstIp = ip := fun hh => hip hh.symm
      rcases hf : mfind ipr.results v.dstIp with _ | ps0 <;>
        simp [scanStep, hp, hf, mfind_minsert, hip, hip']

theorem scanLoop_tcp_rtt :
    ∀ (msgs : List (Except ScanError Verdict)) (tcp : TcpUdpScanResults)
      (ipr : IpScanResults) (t : TcpUdpScanResults) (i : IpScanResults),
      scanLoop tcp ipr msgs = .ok (t, i) → ∀ ip,
      (mfind t.results ip).map PortStatus.rtt =
        mergeRtt ((mfind tcp.results ip).map PortStatus.rtt) (tcpRttsFor msgs ip) := by
  intro msgs
  induction msgs with
  | nil =>
      intro tcp ipr t i h ip
      simp only [scanLoop, Except.ok.injEq, Prod.mk.injEq] at h
      obtain ⟨rfl, rfl⟩ := h
      simp [tcpRttsFor, mergeRtt_nil]
  | cons x rest ih =>
      intro tcp ipr t i h ip
      cases x with
      | error e => exact absurd h (by simp only [scanLoop]; exact fun hh => by cases hh)
      | ok v =>
          simp only [scanLoop] at h
          have hrec := ih _ _ t i h ip
          rw [hrec, scanStep_tcp_rttView]
          by_cases hc : v.protocol = none ∧ v.dstIp = ip
          · rw [if_pos hc, ← mergeRtt_cons]
            have : tcpRttsFor (.ok v :: rest) ip = v.rtt :: tcpRttsFor rest ip := by
              simp [tcpRttsFor, List.filterMap_cons, hc.1, hc.2]
            rw [this]
          · rw [if_neg hc]
            have : tcpRttsFor (.ok v :: rest) ip = tcpRttsFor rest ip := by
              simp only [tcpRttsFor, List.filterMap_cons, if_neg hc]
            rw [this]

theorem scanLoop_ip_rtt :
    ∀ (msgs : List (Except ScanError Verdict)) (tcp : TcpUdpScanResults)
      (ipr : IpScanResults) (t : TcpUdpScanResults) (i : IpScanResults),
      scanLoop tcp ipr msgs = .ok (t, i) → ∀ ip,
      (mfind i.results ip).map ProtocolStatus.rtt =
        mergeRtt ((mfind ipr.results ip).map ProtocolStatus.rtt) (ipRttsFor msgs ip) := by
  intro msgs
  induction msgs with
  | nil =>
      intro tcp ipr t i h ip
      simp only [scanLoop, Except.ok.injEq, Prod.mk.injEq] at h
      obtain ⟨rfl, rfl⟩ := h
      simp [ipRttsFor, mergeRtt_nil]
  | cons x rest ih =>
      intro tcp ipr t i h ip
      cases x with
      | error e => exact absurd h (by simp only [scanLoop]; exact fun hh => by cases hh)
      | ok v =>
          simp only [scanLoop] at h
          have hrec := ih _ _ t i h ip
          rw [hrec, scanStep_ip_rttView]
          by_cases hc : v.protocol.isSome = true ∧ v.dstIp = ip
          · rw [if_pos hc, ← mergeRtt_cons]
            have : ipRttsFor (.ok v :: rest) ip = v.rtt :: ipRttsFor rest ip := by
              simp [ipRttsFor, List.filterMap_cons, hc.1, hc.2]
            rw [this]
          · rw [if_neg hc]
            have : ipRttsFor (.ok v :: rest) ip = ipRttsFor rest ip := by
              simp only [ipRttsFor, List.filterMap_cons, if_neg hc]
            rw [this]

/-- C4: in the aggregation loop of `scan`, the RTT stored in an IP's
`PortStatus` (resp. `ProtocolStatus`) equals the first present RTT among
the verdicts received for that IP on that side, in arrival order — later
RTT observations never change it. -/
theorem C4_rtt_first_observation_wins (msgs : List (Except ScanError Verdict))
    (t : TcpUdpScanResults) (i : IpScanResults)
    (h : scanAggregate msgs = .ok (t, i)) :
    (∀ ip ps, mfind t.results ip = some ps → ps.rtt = firstSome (tcpRttsFor msgs ip)) ∧
    (∀ ip ps, mfind i.results ip = some ps → ps.rtt = firstSome (ipRttsFor msgs ip)) := by
  constructor
  · intro ip ps hfind
    have hv := scanLoop_tcp_rtt msgs TcpUdpScanResults.new IpScanResults.new t i h ip
    rw [hfind] at hv
    have hempty : mfind TcpUdpScanResults.new.results ip = none := rfl
    rw [hempty] at hv
    rcases hl : tcpRttsFor msgs ip with _ | ⟨r, l⟩
    · rw [hl] at hv
      simp [mergeRtt] at hv
    · rw [hl] at hv
      simp only [Option.map_some, mergeRtt] at hv
      exact Option.some_injective _ hv
  · intro ip ps hfind
    have hv := scanLoop_ip_rtt msgs TcpUdpScanResults.new IpScanResults.new t i h ip
    rw [hfind] at hv
    have hempty : mfind IpScanResults.new.results ip = none := rfl
    rw [hempty] at hv
    rcases hl : ipRttsFor msgs ip with _ | ⟨r, l⟩
    · rw [hl] at hv
      simp [mergeRtt] at hv
    · rw [hl] at hv
      simp only [Option.map_some, mergeRtt] at hv
      exact Option.some_injective _ hv

/-- C4 witness: three verdicts for IP 5; the first carries no RTT, the
second carries 7, the third carries 9; the stored RTT is 7. -/
theorem C4_rtt_first_observation_wins_witness :
    ({ status := [(22, TargetScanStatus.Open), (23, TargetScanStatus.Closed),
                  (24, TargetScanStatus.Filtered)], rtt := some 7 } : PortStatus).rtt =
      firstSome (tcpRttsFor
        [.ok { dstIp := 5, dstPort := 22, protocol := none,
               status := .Open, rtt := none },
         .ok { dstIp := 5, dstPort := 23, protocol := none,
               status := .Closed, rtt := some 7 },
         .ok { dstIp := 5, dstPort := 24, protocol := none,
               status := .Filtered, rtt := some 9 }] 5) ∧
    firstSome (tcpRttsFor
      [.ok { dstIp := 5, dstPort := 22, protocol := none,
             status := .Open, rtt := none },
       .ok { dstIp := 5, dstPort := 23, protocol := none,
             status := .Closed, rtt := some 7 },
       .ok { dstIp := 5, dstPort := 24, protocol := none,
             status := .Filtered, rtt := some 9 }] 5) = some 7 :=
  ⟨(C4_rtt_first_observation_wins
      [.ok { dstIp := 5, dstPort := 22, protocol := none,
             status := .Open, rtt := none },
       .ok { dstIp := 5, dstPort := 23, protocol := none,
             status := .Closed, rtt := some 7 },
       .ok { dstIp := 5, dstPort := 24, protocol := none,
             status := .Filtered, rtt := some 9 }]
      { results :=
          [(5, { status := [(22, TargetScanStatus.Open), (23, TargetScanStatus.Closed), (24, TargetScanStatus.Filtered)], rtt := some 7 })] }
      { results := [] } rfl).1 5
    { status := [(22, TargetScanStatus.Open), (23, TargetScanStatus.Closed),
                 (24, TargetScanStatus.Filtered)], rtt := some 7 } rfl, rfl⟩

/-! ## C10 — verdict routing by the protocol argument -/

theorem run_scan_protocol (env : ScanEnv) (method : ScanMethod) (srcIp : Ip)
    (srcPort : Port) (dstIp : Ip) (dstPort : Port) (zombieIp : Option Ip)
    (zombiePort : Option Port) (protocol : Option Protocol) (v : Verdict)
    (h : run_scan env method srcIp srcPort dstIp dstPort zombieIp zombiePort protocol
          = .ok v) :
    v.protocol = protocol := by
  cases method <;>
    · simp only [run_scan] at h
      repeat' split at h
      all_goals simp_all
      all_goals (rw [← h])

theorem scanLoop_ip_side_unchanged :
    ∀ (msgs : List (Except ScanError Verdict)) (tcp : TcpUdpScanResults)
      (ipr : IpScanResults) (t : TcpUdpScanResults) (i : IpScanResults),
      (∀ v : Verdict, .ok v ∈ msgs → v.protocol = none) →
      scanLoop tcp ipr msgs = .ok (t, i) → i = ipr := by
  intro msgs
  induction msgs with
  | nil =>
      intro tcp ipr t i _ h
      simp only [scanLoop, Except.ok.injEq, Prod.mk.injEq] at h
      exact h.2.symm
  | cons x rest ih =>
      intro tcp ipr t i hall h
      cases x with
      | error e => exact absurd h (by simp only [scanLoop]; exact fun hh => by cases hh)
      | ok v =>
          simp only [scanLoop] at h
          have hp := hall v (List.mem_cons_self _ _)
          rw [scanStep_snd_of_none tcp ipr v hp] at h
          exact ih _ _ t i (fun w hw => hall w (List.mem_cons_of_mem _ hw)) h

theorem scanLoop_tcp_side_unchanged :
    ∀ (msgs : List (Except ScanError Verdict)) (tcp : TcpUdpScanResults)
      (ipr : IpScanResults) (t : TcpUdpScanResults) (i : IpScanResults),
      (∀ v : Verdict, .ok v ∈ msgs → v.protocol.isSome) →
      scanLoop tcp ipr msgs = .ok (t, i) → t = tcp := by
  intro msgs
  induction msgs with
  | nil =>
      intro tcp ipr t i _ h
      simp only [scanLoop, Except.ok.injEq, Prod.mk.injEq] at h
      exact h.1.symm
  | cons x rest ih =>
      intro tcp ipr t i hall h
      cases x with
      | error e => exact absurd h (by simp only [scanLoop]; exact fun hh => by cases hh)
      | ok v =>
          simp only [scanLoop] at h
          obtain ⟨p, hp⟩ := Option.isSome_iff_exists.mp (hall v (List.mem_cons_self _ _))
          rw [scanStep_fst_of_some tcp ipr v p hp] at h
          exact ih _ _ t i (fun w hw => hall w (List.mem_cons_of_mem _ hw)) h

theorem run_scan_dstIp (env : ScanEnv) (method : ScanMethod) (srcIp : Ip)
    (srcPort : Port) (dstIp : Ip) (dstPort : Port) (zombieIp : Option Ip)
    (zombiePort : Option Port) (protocol : Option Protocol) (v : Verdict)
    (h : run_scan env method srcIp srcPort dstIp dstPort zombieIp zombiePort protocol
          = .ok v) :
    v.dstIp = dstIp := by
  cases method <;>
    · simp only [run_scan] at h
      repeat' split at h
      all_goals simp_all
      all_goals (rw [← h])

theorem scanTasksLoop_covers :
    ∀ (hosts : List Host) (env : ScanEnv) (srcIp? : Option Ip)
      (srcPort? : Option Port) (k : Nat) (ts : List ScanTask),
      scanTasksLoop env srcIp? srcPort? k hosts = .ok ts →
      ∀ hd ∈ hosts, ∀ port ∈ hd.ports,
        ∃ tk ∈ ts, tk.dstIp = hd.addr ∧ tk.dstPort = port := by
  intro hosts
  induction hosts with
  | nil =>
      intro env srcIp? srcPort? k ts _ hd hmem
      cases hmem
  | cons hd0 hs ih =>
      intro env srcIp? srcPort? k ts h hd hmem port hport
      rcases srcPort? with _ | sp0
      · rcases hf : env.findSourceIpv4 srcIp? hd0.addr with e | o
        · rw [scanTasksLoop, hf] at h
          cases h
        · rcases o with _ | s
          · rw [scanTasksLoop, hf] at h
            cases h
          · rcases hrec : scanTasksLoop env srcIp? none (k + 1) hs with e | ts'
            · rw [scanTasksLoop, hf] at h
              simp only at h
              rw [hrec] at h
              cases h
            · rw [scanTasksLoop, hf] at h
              simp only at h
              rw [hrec] at h
              simp only [Except.ok.injEq] at h
              subst h
              rcases List.mem_cons.mp hmem with rfl | hmem'
              · exact ⟨_, List.mem_append_left _
                  (List.mem_map.mpr ⟨port, hport, rfl⟩), rfl, rfl⟩
              · obtain ⟨tk, htk, hqs⟩ := ih env srcIp? none (k + 1) ts' hrec hd hmem'
                  port hport
                exact ⟨tk, List.mem_append_right _ htk, hqs⟩
      · rcases hf : env.findSourceIpv4 srcIp? hd0.addr with e | o
        · rw [scanTasksLoop, hf] at h
          cases h
        · rcases o with _ | s
          · rw [scanTasksLoop, hf] at h
            cases h
          · rcases hrec : scanTasksLoop env srcIp? (some sp0) k hs with e | ts'
            · rw [scanTasksLoop, hf] at h
              simp only at h
              rw [hrec] at h
              cases h
            · rw [scanTasksLoop, hf] at h
              simp only at h
              rw [hrec] at h
              simp only [Except.ok.injEq] at h
              subst h
              rcases List.mem_cons.mp hmem with rfl | hmem'
              · exact ⟨_, List.mem_append_left _
                  (List.mem_map.mpr ⟨port, hport, rfl⟩), rfl, rfl⟩
              · obtain ⟨tk, htk, hqs⟩ := ih env srcIp? (some sp0) k ts' hrec hd hmem'
                  port hport
                exact ⟨tk, List.mem_append_right _ htk, hqs⟩

theorem scanLoop_all_ok :
    ∀ (msgs : List (Except ScanError Verdict)) (tcp : TcpUdpScanResults)
      (ipr : IpScanResults) (r : TcpUdpScanResults × IpScanResults),
      scanLoop tcp ipr msgs = .ok r → ∀ x ∈ msgs, ∃ v, x = .ok v := by
  intro msgs
  induction msgs with
  | nil => intro tcp ipr r _ x hx; cases hx
  | cons x rest ih =>
      intro tcp ipr r h y hy
      cases x with
      | error e => exact absurd h (by simp only [scanLoop]; exact fun hh => by cases hh)
      | ok v =>
          rcases List.mem_cons.mp hy with rfl | hy'
          · exact ⟨v, rfl⟩
          · simp only [scanLoop] at h
            exact ih _ _ r h y hy'

theorem mfind_ip_results_of_verdict (msgs : List (Except ScanError Verdict))
    (t : TcpUdpScanResults) (i : IpScanResults) (v : Verdict)
    (h : scanAggregate msgs = .ok (t, i)) (hmem : .ok v ∈ msgs)
    (hp : v.protocol.isSome) : mfind i.results v.dstIp ≠ none := by
  have hv := scanLoop_ip_rtt msgs TcpUdpScanResults.new IpScanResults.new t i h v.dstIp
  have hr : v.rtt ∈ ipRttsFor msgs v.dstIp := by
    refine List.mem_filterMap.mpr ⟨.ok v, hmem, ?_⟩
    simp [hp]
  rcases hl : ipRttsFor msgs v.dstIp with _ | ⟨r, l⟩
  · rw [hl] at hr
    cases hr
  · rw [hl] at hv
    have hempty : mfind IpScanResults.new.results v.dstIp = none := rfl
    rw [hempty] at hv
    simp only [mergeRtt] at hv
    intro hnone
    rw [hnone] at hv
    cases hv

/-- C10: whenever `scan` returns `Ok`, the verdicts land on the side the
`protocol` argument selects: with `protocol = None` — what every call
with a method other than `IpProcotol` passes, since every public wrapper
hands `scan` `protocol = None` — the `IpScanResults` component stays
empty, while with a protocol supplied (the `IpProcotol` wrapper) every
scanned host lands in the `IpScanResults` component and the
`TcpUdpScanResults` component stays empty. -/
theorem C10_protocol_routing (env : ScanEnv) (hosts : List Host)
    (method : ScanMethod) (srcIp? : Option Ip) (srcPort? : Option Port)
    (zombieIp : Option Ip) (zombiePort : Option Port) (protocol : Option Protocol)
    (t : TcpUdpScanResults) (i : IpScanResults)
    (h : scan env hosts method srcIp? srcPort? zombieIp zombiePort protocol = .ok (t, i)) :
    (protocol = none → i.results = []) ∧
    (∀ p, protocol = some p → t.results = [] ∧
      ∀ hd ∈ hosts, ∀ port ∈ hd.ports, mfind i.results hd.addr ≠ none) := by
  rcases ht : scanTasksLoop env srcIp? srcPort? 0 hosts with e | tasks
  · rw [scan, ht] at h
    cases h
  · rw [scan, ht] at h
    have hall : ∀ v : Verdict,
        .ok v ∈ tasks.map (fun tk => run_scan env method tk.srcIp tk.srcPort tk.dstIp
          tk.dstPort zombieIp zombiePort protocol) → v.protocol = protocol := by
      intro v hv
      obtain ⟨tk, _, htk⟩ := List.mem_map.mp hv
      exact run_scan_protocol env method tk.srcIp tk.srcPort tk.dstIp tk.dstPort
        zombieIp zombiePort protocol v htk
    constructor
    · intro hnone
      subst hnone
      have := scanLoop_ip_side_unchanged _ TcpUdpScanResults.new IpScanResults.new t i
        hall h
      rw [this]
      rfl
    · intro p hsome
      subst hsome
      constructor
      · have := scanLoop_tcp_side_unchanged _ TcpUdpScanResults.new IpScanResults.new t i
          (fun v hv => by rw [hall v hv]; rfl) h
        rw [this]
        rfl
      · intro hd hmem port hport
        obtain ⟨tk, htk, hdst, _⟩ :=
          scanTasksLoop_covers hosts env srcIp? srcPort? 0 tasks ht hd hmem port hport
        have hmsg : run_scan env method tk.srcIp tk.srcPort tk.dstIp tk.dstPort
            zombieIp zombiePort (some p) ∈ tasks.map (fun tk =>
              run_scan env method tk.srcIp tk.srcPort tk.dstIp tk.dstPort
                zombieIp zombiePort (some p)) :=
          List.mem_map.mpr ⟨tk, htk, rfl⟩
        obtain ⟨v, hveq⟩ := scanLoop_all_ok _ TcpUdpScanResults.new IpScanResults.new
          (t, i) h _ hmsg
        rw [hveq] at hmsg
        have hvdst : v.dstIp = tk.dstIp :=
          run_scan_dstIp env method tk.srcIp tk.srcPort tk.dstIp tk.dstPort
            zombieIp zombiePort (some p) v hveq
        have hvp : v.protocol = some p :=
          run_scan_protocol env method tk.srcIp tk.srcPort tk.dstIp tk.dstPort
            zombieIp zombiePort (some p) v hveq
        have := mfind_ip_results_of_verdict _ t i v h hmsg (by rw [hvp]; rfl)
        rw [hvdst, hdst] at this
        exact this

/-- C10 witness: a SYN scan under `envW` leaves the IP-protocol side
empty, and an IP-protocol scan with protocol 17 leaves the TCP/UDP side
empty while host 5 lands in the IP-protocol side. -/
theorem C10_protocol_routing_witness :
    ({ results := [] } : IpScanResults).results = [] ∧
    ({ results := [] } : TcpUdpScanResults).results = [] ∧
    mfind ({ results := [(5, { status := [(17, TargetScanStatus.Open)], rtt := none })] }
      : IpScanResults).results 5 ≠ none :=
  ⟨(C10_protocol_routing envW [{ addr := 5, ports := [22] }] .Syn none none none none
      none
      { results := [(5, { status := [(22, TargetScanStatus.Filtered)], rtt := none })] }
      { results := [] } rfl).1 rfl,
   ((C10_protocol_routing envW [{ addr := 5, ports := [22] }] .IpProcotol none none
      none none (some 17)
      { results := [] }
      { results := [(5, { status := [(17, TargetScanStatus.Open)], rtt := none })] }
      rfl).2 17 rfl).1,
   ((C10_protocol_routing envW [{ addr := 5, ports := [22] }] .IpProcotol none none
      none none (some 17)
      { results := [] }
      { results := [(5, { status := [(17, TargetScanStatus.Open)], rtt := none })] }
      rfl).2 17 rfl).2 { addr := 5, ports := [22] } (List.mem_singleton.mpr rfl)
      22 (List.mem_singleton.mpr rfl)⟩

/-! ## C3 — ARP probe failures abort the campaign -/

/-- C3 (counterexample): one host whose ARP probe returns the error
`"send failed"` makes the aggregation of `arp_scan` return that error —
the `?` operator on the probe result propagates it — instead of
completing the campaign with the host absent, as the claim states. -/
theorem C3_probe_error_aborts_counterexample :
    arpAggregate [] [.ok (1, .error "send failed")] = .error "send failed" := rfl

theorem arpLoop_first_error (e : String) (post : List ArpMsg) (ip : Ip) :
    ∀ (pre : List ArpMsg) (prefixes : List NmapMacPrefix)
      (acc : List (Ip × ArpAliveHosts)),
      (∀ x ∈ pre, arpMsgClean x) →
      arpLoop prefixes acc (pre ++ .ok (ip, .error e) :: post) = .error e := by
  intro pre
  induction pre with
  | nil => intro prefixes acc _; rfl
  | cons x rest ih =>
      intro prefixes acc hpre
      obtain ⟨q, obs, rfl⟩ := hpre x (List.mem_cons_self x rest)
      simp only [List.cons_append, arpLoop]
      exact ih prefixes _ (fun y hy => hpre y (List.mem_cons_of_mem _ hy))

theorem arpLoop_no_reply_absent :
    ∀ (msgs : List ArpMsg) (prefixes : List NmapMacPrefix)
      (acc : List (Ip × ArpAliveHosts)) (res : ArpScanResults) (ip : Ip),
      arpLoop prefixes acc msgs = .ok res →
      (∀ q obs, .ok (q, .ok obs) ∈ msgs → q = ip → obs.1 = none ∨ obs.2 = none) →
      mfind acc ip = none → mfind res.aliveHosts ip = none := by
  intro msgs
  induction msgs with
  | nil =>
      intro prefixes acc res ip h _ hacc
      simp only [arpLoop, Except.ok.injEq] at h
      rw [← h]
      exact hacc
  | cons x rest ih =>
      intro prefixes acc res ip h hno hacc
      match x with
      | .error e =>
          exact absurd h (by simp only [arpLoop]; exact fun hh => by cases hh)
      | .ok (q, .error e) =>
          exact absurd h (by simp only [arpLoop]; exact fun hh => by cases hh)
      | .ok (q, .ok obs) =>
          simp only [arpLoop] at h
          refine ih prefixes _ res ip h
            (fun q' obs' hm hq => hno q' obs' (List.mem_cons_of_mem _ hm) hq) ?_
          rcases obs with ⟨om, orr⟩
          rcases om with _ | m
          · simpa [arpStep] using hacc
          · rcases orr with _ | r
            · simpa [arpStep] using hacc
            · by_cases hq : q = ip
              · rcases hno q (some m, some r) (List.mem_cons_self _ _) hq with h1 | h1 <;>
                  cases h1
              · have hq' : ¬ ip = q := fun hh => hq hh.symm
                simpa [arpStep, mfind_minsert, hq'] using hacc

/-- C3 (amended): an error from an individual host's ARP probe DOES fail
the campaign — `arp_scan` aborts and returns the first probe error
received.  What does not fail the campaign is a host whose probe
completed without a full (MAC, RTT) observation: that host is simply
absent from `ArpScanResults.alive_hosts`. -/
theorem C3_arp_probe_error_policy :
    (∀ (prefixes : List NmapMacPrefix) (pre post : List ArpMsg) (ip : Ip) (e : String),
        (∀ x ∈ pre, arpMsgClean x) →
        arpAggregate prefixes (pre ++ .ok (ip, .error e) :: post) = .error e) ∧
    (∀ (prefixes : List NmapMacPrefix) (msgs : List ArpMsg) (res : ArpScanResults)
        (ip : Ip),
        arpAggregate prefixes msgs = .ok res →
        (∀ q obs, .ok (q, .ok obs) ∈ msgs → q = ip → obs.1 = none ∨ obs.2 = none) →
        mfind res.aliveHosts ip = none) :=
  ⟨fun prefixes pre post ip e hpre =>
      arpLoop_first_error e post ip pre prefixes [] hpre,
   fun prefixes msgs res ip h hno =>
      arpLoop_no_reply_absent msgs prefixes [] res ip h hno rfl⟩

/-- C3 witness: the abort half applied to one clean observation followed
by a probe error, and the absence half applied to a no-reply host 1
beside a discovered host 2. -/
theorem C3_arp_probe_error_policy_witness :
    arpAggregate []
      ([.ok (2, .ok (some { b0 := 0, b1 := 1, b2 := 2, b3 := 3, b4 := 4, b5 := 5 },
         some 1))] ++ .ok (1, .error "send failed") :: []) = .error "send failed" ∧
    mfind ({ aliveHosts :=
        [(2, { macAddr := { b0 := 0, b1 := 1, b2 := 2, b3 := 3, b4 := 4, b5 := 5 },
               ouis := [] })] } : ArpScanResults).aliveHosts 1 = none :=
  ⟨C3_arp_probe_error_policy.1 []
      [.ok (2, .ok (some { b0 := 0, b1 := 1, b2 := 2, b3 := 3, b4 := 4, b5 := 5 },
        some 1))] [] 1 "send failed"
      (by
        intro x hx
        rcases List.mem_singleton.mp hx with rfl
        exact ⟨2, _, rfl⟩),
   C3_arp_probe_error_policy.2 []
      [.ok (1, .ok (none, none)),
       .ok (2, .ok (some { b0 := 0, b1 := 1, b2 := 2, b3 := 3, b4 := 4, b5 := 5 },
        some 1))]
      { aliveHosts :=
          [(2, { macAddr := { b0 := 0, b1 := 1, b2 := 2, b3 := 3, b4 := 4, b5 := 5 },
                 ouis := [] })] } 1 rfl
      (by
        intro q obs hm hq
        rcases List.mem_cons.mp hm with hm | hm
        · left
          cases hm
          rfl
        · rcases List.mem_cons.mp hm with hm | hm
          · cases hm
            exact absurd hq (by decide)
          · cases hm)⟩

/-! ## C9 — the source port is drawn once per host -/

/-- C9 (counterexample): under `envW`, whose draw sequence is injective
(`49152 + k`), the host `5` with ports `[22, 23]` and `src_port = None`
yields two tasks that SHARE the single draw `49152`, while the per-task
sampling the claim describes (`scanTasksPerTaskDraw`, rendered from the
spec wording) would give them the distinct ports `49152` and `49153`:
`random_port()` is called once per host, outside the port loop. -/
theorem C9_src_port_draw_counterexample :
    envW.randomPort 0 ≠ envW.randomPort 1 ∧
    scanTasksLoop envW none none 0 [{ addr := 5, ports := [22, 23] }] =
      .ok [{ srcIp := 105, srcPort := 49152, dstIp := 5, dstPort := 22 },
           { srcIp := 105, srcPort := 49152, dstIp := 5, dstPort := 23 }] ∧
    scanTasksPerTaskDraw envW none none 0 [{ addr := 5, ports := [22, 23] }] =
      .ok [{ srcIp := 105, srcPort := 49152, dstIp := 5, dstPort := 22 },
           { srcIp := 105, srcPort := 49153, dstIp := 5, dstPort := 23 }] :=
  ⟨by decide, rfl, rfl⟩

/-- C9 (amended): in `scan` with `src_port = None`, the source port is
drawn once per HOST — all port tasks of a host share the single draw
made when the host is processed, and the next host uses the next draw. -/
theorem C9_src_port_once_per_host (env : ScanEnv) (srcIp? : Option Ip) (k : Nat)
    (hd : Host) (hs : List Host) (ts : List ScanTask)
    (hok : scanTasksLoop env srcIp? none k (hd :: hs) = .ok ts) :
    ∃ s ts', env.findSourceIpv4 srcIp? hd.addr = .ok (some s) ∧
      scanTasksLoop env srcIp? none (k + 1) hs = .ok ts' ∧
      ts = hd.ports.map (fun dp =>
        { srcIp := s, srcPort := env.randomPort k, dstIp := hd.addr, dstPort := dp })
        ++ ts' := by
  rcases hf : env.findSourceIpv4 srcIp? hd.addr with e | o
  · rw [scanTasksLoop, hf] at hok
    cases hok
  · rcases o with _ | s
    · rw [scanTasksLoop, hf] at hok
      cases hok
    · rcases hrec : scanTasksLoop env srcIp? none (k + 1) hs with e | ts'
      · rw [scanTasksLoop, hf] at hok
        simp only at hok
        rw [hrec] at hok
        cases hok
      · rw [scanTasksLoop, hf] at hok
        simp only at hok
        rw [hrec] at hok
        simp only [Except.ok.injEq] at hok
        exact ⟨s, ts', rfl, rfl, hok.symm⟩

/-- C9 witness: the amended statement applied to host 5 with ports
`[22, 23]` under `envW`. -/
theorem C9_src_port_once_per_host_witness :
    ∃ s ts', envW.findSourceIpv4 none ({ addr := 5, ports := [22, 23] } : Host).addr
        = .ok (some s) ∧
      scanTasksLoop envW none none 1 [] = .ok ts' ∧
      [{ srcIp := 105, srcPort := 49152, dstIp := 5, dstPort := 22 },
       { srcIp := 105, srcPort := 49152, dstIp := 5, dstPort := 23 }] =
        ({ addr := 5, ports := [22, 23] } : Host).ports.map (fun dp =>
          { srcIp := s, srcPort := envW.randomPort 0,
            dstIp := ({ addr := 5, ports := [22, 23] } : Host).addr, dstPort := dp })
          ++ ts' :=
  C9_src_port_once_per_host envW none 0 { addr := 5, ports := [22, 23] } []
    [{ srcIp := 105, srcPort := 49152, dstIp := 5, dstPort := 22 },
     { srcIp := 105, srcPort := 49152, dstIp := 5, dstPort := 23 }] rfl

end Pistol
